import Mathlib

/-!
# Verification of the Indodax trade-endpoint rate-limit tester

A shallow embedding of the three Python source files
(`rapid_hitter.py`, `single_pair_test.py`, `ccxt_rapid_hitter.py`) of the
repository, together with theorems settling the frozen claims about the
natural-language specification.

Conventions of the embedding:
* Python `float` delays are modelled as rationals (`ℚ`); the claims in scope
  are order-theoretic (bounds, monotonicity, exact update formulas) and do not
  depend on rounding of binary floating point.
* Byte strings are `List ℕ` with each entry below 256 by construction.
* The network is an oracle: each request's transport outcome is an input to
  the (otherwise pure) run functions, so runs are total functions from the
  outcome sequence to the logged results and the trace of pacing events.
-/

namespace Indodax

/-- The decoded response body as the Python code inspects it: either a JSON
object (a `dict` — only the `error_code` and `error` fields are ever read,
each possibly absent), or a non-dict value such as the `str(e)` of a caught
exception (`isinstance(result['response'], dict)` is then false). -/
inductive Body where
  | dict (error_code : Option String) (error : Option String)
  | raw (s : String)
deriving DecidableEq

/-- Python truthiness of `result['response'].get('error_code')`: `None` and
the empty string are falsy. -/
def errorCodeTruthy : Option String → Bool
  | none => false
  | some s => !(s = "")

/-- The exact `error_code` compared against in `single_pair_test.py` line 90. -/
def rateLimitErrorCode : String := "too_many_requests_from_your_ip"

/-- Backoff ceiling of `single_pair_test.py` line 91 (`5.0` seconds). -/
def backoffCeiling : ℚ := 5

/-- Mutable loop state of `IndodaxSinglePairTester.run_test`: the current
inter-request delay (`backoff`) and the consecutive-error counter. -/
structure AdaptiveState where
  backoff : ℚ
  consecutiveErrors : ℕ
deriving DecidableEq

/-- One iteration of the backoff-adjustment block of
`IndodaxSinglePairTester.run_test` (`single_pair_test.py` lines 84–96):
only executed when the response is a dict; on a truthy `error_code` the
error counter is incremented and the delay doubles (capped at 5 s) exactly
when the code equals `rateLimitErrorCode`; on a falsy `error_code` the
counter resets and the delay shrinks by 1.5, floored at `initialDelay`. -/
def adaptiveStep (initialDelay : ℚ) (st : AdaptiveState) (resp : Body) : AdaptiveState :=
  match resp with
  | .raw _ => st
  | .dict ec _ =>
    if errorCodeTruthy ec then
      let st1 : AdaptiveState := { st with consecutiveErrors := st.consecutiveErrors + 1 }
      if ec = some rateLimitErrorCode then
        { st1 with backoff := min (st1.backoff * 2) backoffCeiling }
      else st1
    else
      { backoff := max initialDelay (st.backoff / (3/2)), consecutiveErrors := 0 }

/-- The adaptive state after a whole sequence of classified outcomes, starting
from `backoff = initialDelay` and a zero error counter. -/
def adaptiveRun (initialDelay : ℚ) (outcomes : List Body) : AdaptiveState :=
  outcomes.foldl (adaptiveStep initialDelay) ⟨initialDelay, 0⟩

/-- ASCII lowercase conversion, as applied by `.lower()` to the (ASCII)
vendor message before the substring test in `rapid_hitter.py` line 58. -/
def lowerChar (c : Char) : Char :=
  if 65 ≤ c.toNat && c.toNat ≤ 90 then Char.ofNat (c.toNat + 32) else c

/-- Lowercase an entire character list. -/
def lowerList (l : List Char) : List Char := l.map lowerChar

/-- `leadsWith needle hay` holds when `hay` starts with `needle`. -/
def leadsWith : List Char → List Char → Bool
  | [], _ => true
  | _ :: _, [] => false
  | n :: ns, h :: hs => n = h && leadsWith ns hs

/-- Substring containment of Python's `in` operator on strings:
`containsSub hay needle` is true when `needle` occurs contiguously in `hay`. -/
def containsSub : List Char → List Char → Bool
  | [], needle => needle.isEmpty
  | h :: hs, needle => leadsWith needle (h :: hs) || containsSub hs needle

/-- The fixed rate-limit marker phrase of `rapid_hitter.py` line 58. -/
def rateLimitMarker : String := "try again in 5 seconds"

/-- Derivation of the `is_rate_limited` flag (`rapid_hitter.py` lines 56–59):
`error_msg = result.get('error', '')`, then the flag is set iff `error_msg`
is truthy and the marker occurs in `error_msg.lower()`. -/
def isRateLimited (error : Option String) : Bool :=
  let msg := error.getD ""
  !(msg = "") && containsSub (lowerList msg.data) rateLimitMarker.data

/-- The `status` field of a logged record in `single_pair_test.py` and
`rapid_hitter.py`: the HTTP status code on a received response, or the
literal string `'error'` written by the exception handler. -/
inductive SPStatus where
  | code (n : ℕ)
  | error
deriving DecidableEq

/-- What the network did for one request: a decoded response (HTTP status and
JSON body) or an exception raised before a response was available. -/
inductive Transport where
  | success (status : ℕ) (body : Body)
  | failure (msg : String)
deriving DecidableEq

/-- A logged record of `IndodaxSinglePairTester.send_trade_request`
(`single_pair_test.py` lines 49–66), restricted to the fields the claims
mention; wall-clock timing fields are outside the embedding. -/
structure SPResult where
  request_id : ℕ
  pair : String
  status : SPStatus
  response : Body
deriving DecidableEq

/-- `IndodaxSinglePairTester.send_trade_request`, as a function of the
transport outcome: a response gives a record with its HTTP status and decoded
body; a caught exception gives `status = 'error'` and `response = str(e)`. -/
def spSend (pair : String) (request_id : ℕ) (t : Transport) : SPResult :=
  match t with
  | .success status body => ⟨request_id, pair, .code status, body⟩
  | .failure e => ⟨request_id, pair, .error, .raw e⟩

/-- A logged record of `IndodaxRateLimitTester.send_trade_request` in
`rapid_hitter.py` (lines 61–82): like `SPResult` plus the derived
`is_rate_limited` flag. -/
structure RapidResult where
  request_id : ℕ
  pair : String
  status : SPStatus
  response : Body
  is_rate_limited : Bool
deriving DecidableEq

/-- Transport outcome for `rapid_hitter.py`: a decoded response is a JSON
dict carrying the two fields the code reads (`error` is read by
`result.get('error', '')`). -/
inductive RTransport where
  | success (status : ℕ) (error_code : Option String) (error : Option String)
  | failure (msg : String)
deriving DecidableEq

/-- `IndodaxRateLimitTester.send_trade_request` of `rapid_hitter.py`:
on a response the flag is computed from the body's `error` field by
`isRateLimited`; on an exception it is the literal `False` and the body is
`str(e)`. -/
def rapidSend (pair : String) (request_id : ℕ) (t : RTransport) : RapidResult :=
  match t with
  | .success status ec err => ⟨request_id, pair, .code status, .dict ec err, isRateLimited err⟩
  | .failure e => ⟨request_id, pair, .error, .raw e, false⟩

/-- Status of a record in `ccxt_rapid_hitter.py`: 200 on success, or one of
the three exception-handler strings. -/
inductive CStatus where
  | code (n : ℕ)
  | network_error
  | exchange_error
  | error
deriving DecidableEq

/-- Transport outcome for the ccxt variant: a created order (opaque response),
or one of the three caught exception kinds. -/
inductive CTransport where
  | success (resp : String)
  | networkError (msg : String)
  | exchangeError (msg : String)
  | failure (msg : String)
deriving DecidableEq

/-- A logged record of `ccxt_rapid_hitter.py`'s `send_trade_request`. -/
structure CcxtResult where
  request_id : ℕ
  pair : String
  status : CStatus
  response : String
deriving DecidableEq

/-- `IndodaxRateLimitTester.send_trade_request` of `ccxt_rapid_hitter.py`
(lines 15–75): every exception kind is caught and logged with its own status
string and `str(e)` as the response. -/
def ccxtSend (pair : String) (request_id : ℕ) (t : CTransport) : CcxtResult :=
  match t with
  | .success r => ⟨request_id, pair, .code 200, r⟩
  | .networkError e => ⟨request_id, pair, .network_error, e⟩
  | .exchangeError e => ⟨request_id, pair, .exchange_error, e⟩
  | .failure e => ⟨request_id, pair, .error, e⟩

/-- An observable pacing event of a channel run: issuing the request with a
given id, or an `asyncio.sleep` of a given duration (seconds). -/
inductive Event where
  | request (id : ℕ)
  | wait (d : ℚ)
deriving DecidableEq

/-- Whether an event is a pacing wait. -/
def Event.isWait : Event → Bool
  | .request _ => false
  | .wait _ => true

/-- The loop body of `IndodaxSinglePairTester.run_test` (`single_pair_test.py`
lines 78–101) over the remaining loop indices: send request `i`, append the
record, run the backoff-adjustment block, and sleep the (updated) backoff —
guarded by `i < num_requests - 1` so the final request is not followed by a
sleep. Returns the appended records and the trace of events. -/
def runTestAux (initialDelay : ℚ) (numRequests : ℕ) (pair : String)
    (oracle : ℕ → Transport) : List ℕ → AdaptiveState → List SPResult × List Event
  | [], _ => ([], [])
  | i :: rest, st =>
    let r := spSend pair i (oracle i)
    let st1 := adaptiveStep initialDelay st r.response
    let (rs, evs) := runTestAux initialDelay numRequests pair oracle rest st1
    (r :: rs,
      Event.request i ::
        (if i < numRequests - 1 then Event.wait st1.backoff :: evs else evs))

/-- `IndodaxSinglePairTester.run_test`: iterate the loop body over
`range(num_requests)` starting from `backoff = initial_delay` and
`consecutive_errors = 0`. -/
def runTest (initialDelay : ℚ) (numRequests : ℕ) (pair : String)
    (oracle : ℕ → Transport) : List SPResult × List Event :=
  runTestAux initialDelay numRequests pair oracle (List.range numRequests) ⟨initialDelay, 0⟩

/-- The loop body of `run_pair_requests` in `ccxt_rapid_hitter.py`
(lines 77–85): send request `start_id + i`, append, and sleep a fixed 60 ms
guarded by `i < requests_per_pair - 1`. -/
def ccxtRunAux (requestsPerPair startId : ℕ) (pair : String)
    (oracle : ℕ → CTransport) : List ℕ → List CcxtResult × List Event
  | [] => ([], [])
  | i :: rest =>
    let r := ccxtSend pair (startId + i) (oracle i)
    let (rs, evs) := ccxtRunAux requestsPerPair startId pair oracle rest
    (r :: rs,
      Event.request (startId + i) ::
        (if i < requestsPerPair - 1 then Event.wait (3/50) :: evs else evs))

/-- `run_pair_requests` of `ccxt_rapid_hitter.py`. -/
def ccxtRun (requestsPerPair startId : ℕ) (pair : String)
    (oracle : ℕ → CTransport) : List CcxtResult × List Event :=
  ccxtRunAux requestsPerPair startId pair oracle (List.range requestsPerPair)

/-- The scheduling loop of `run_pair_requests` in `rapid_hitter.py`
(lines 93–102): each iteration creates the task for request `start_id + i`
and then sleeps 60 ms — with no guard, so the sleep also follows the final
iteration; `asyncio.gather` then collects the results in task order. -/
def rapidRunAux (startId : ℕ) (pair : String)
    (oracle : ℕ → RTransport) : List ℕ → List RapidResult × List Event
  | [] => ([], [])
  | i :: rest =>
    let r := rapidSend pair (startId + i) (oracle i)
    let (rs, evs) := rapidRunAux startId pair oracle rest
    (r :: rs, Event.request (startId + i) :: Event.wait (3/50) :: evs)

/-- `run_pair_requests` of `rapid_hitter.py`. -/
def rapidRunPair (requestsPerPair startId : ℕ) (pair : String)
    (oracle : ℕ → RTransport) : List RapidResult × List Event :=
  rapidRunAux startId pair oracle (List.range requestsPerPair)

/-- The dispatcher loop of `run_rate_limit_test` in `rapid_hitter.py`
(lines 120–125): `for i, pair in enumerate(pairs)` runs each channel with
`start_id = i * requests_per_pair` and extends one flat result list. -/
def rapidRunAllAux (requestsPerPair : ℕ) (oracle : ℕ → ℕ → RTransport) :
    ℕ → List String → List RapidResult
  | _, [] => []
  | i, pair :: rest =>
    (rapidRunPair requestsPerPair (i * requestsPerPair) pair (oracle i)).1 ++
      rapidRunAllAux requestsPerPair oracle (i + 1) rest

/-- `run_rate_limit_test` of `rapid_hitter.py`. -/
def rapidRunAll (pairs : List String) (requestsPerPair : ℕ)
    (oracle : ℕ → ℕ → RTransport) : List RapidResult :=
  rapidRunAllAux requestsPerPair oracle 0 pairs

/-- The dispatcher of `ccxt_rapid_hitter.py` (`run_rate_limit_test`,
lines 87–94): one task per pair with `start_id = i * requests_per_pair`,
gathered in order and flattened. -/
def ccxtRunAllAux (requestsPerPair : ℕ) (oracle : ℕ → ℕ → CTransport) :
    ℕ → List String → List CcxtResult
  | _, [] => []
  | i, pair :: rest =>
    (ccxtRun requestsPerPair (i * requestsPerPair) pair (oracle i)).1 ++
      ccxtRunAllAux requestsPerPair oracle (i + 1) rest

/-- `run_rate_limit_test` of `ccxt_rapid_hitter.py`. -/
def ccxtRunAll (pairs : List String) (requestsPerPair : ℕ)
    (oracle : ℕ → ℕ → CTransport) : List CcxtResult :=
  ccxtRunAllAux requestsPerPair oracle 0 pairs

/-- Interleaving of request events with a supply of waits: each request is
followed by one wait while the supply lasts; once the supply is exhausted the
remaining requests stand alone. With `ids.length = N` and a supply of length
`N - 1` this is exactly "a wait after each of the first `N - 1` requests and
none after the final one". -/
def weaveEvents : List ℕ → List ℚ → List Event
  | [], _ => []
  | i :: rest, [] => Event.request i :: weaveEvents rest []
  | i :: rest, d :: ds => Event.request i :: Event.wait d :: weaveEvents rest ds

/-- UTF-8 encoding of one character's scalar value, as `str.encode()` does. -/
def utf8EncodeChar (c : Char) : List ℕ :=
  let n := c.toNat
  if n < 128 then [n]
  else if n < 2048 then [192 ||| (n >>> 6), 128 ||| (n &&& 63)]
  else if n < 65536 then
    [224 ||| (n >>> 12), 128 ||| ((n >>> 6) &&& 63), 128 ||| (n &&& 63)]
  else
    [240 ||| (n >>> 18), 128 ||| ((n >>> 12) &&& 63),
      128 ||| ((n >>> 6) &&& 63), 128 ||| (n &&& 63)]

/-- UTF-8 bytes of a string (`.encode()` in the Python code). -/
def strBytes (s : String) : List ℕ := s.data.flatMap utf8EncodeChar

/-- The always-safe characters of `urllib.parse.quote`: ASCII letters,
digits, and `_.-~`. -/
def isUrlSafe (c : Char) : Bool :=
  (97 ≤ c.toNat && c.toNat ≤ 122) || (65 ≤ c.toNat && c.toNat ≤ 90) ||
    (48 ≤ c.toNat && c.toNat ≤ 57) || c = '_' || c = '.' || c = '-' || c = '~'

/-- Uppercase hexadecimal digit, as `quote` uses in `%XX` escapes. -/
def hexUpperChar (n : ℕ) : Char :=
  if n < 10 then Char.ofNat (48 + n) else Char.ofNat (55 + n)

/-- `%XX` escape of one byte. -/
def percentByte (b : ℕ) : List Char :=
  ['%', hexUpperChar (b / 16 % 16), hexUpperChar (b % 16)]

/-- One character under `urllib.parse.quote_plus` with empty `safe` (the
default applied by `urlencode`): a space becomes `+`, a safe character passes
through, anything else is percent-escaped byte-wise over its UTF-8 bytes. -/
def quotePlusChar (c : Char) : List Char :=
  if c = ' ' then ['+']
  else if isUrlSafe c then [c]
  else (utf8EncodeChar c).flatMap percentByte

/-- `urllib.parse.quote_plus` over a whole string. -/
def quotePlus (s : String) : String := ⟨s.data.flatMap quotePlusChar⟩

/-- `urllib.parse.urlencode` over an ordered key/value mapping: each pair
becomes `quote_plus(k) = quote_plus(v)` and the pairs are joined with `&` in
the supplied iteration order. -/
def urlencode (params : List (String × String)) : String :=
  String.intercalate "&"
    (params.map (fun p => quotePlus p.1 ++ "=" ++ quotePlus p.2))

/-- Addition of 64-bit words. -/
def add64 (a b : ℕ) : ℕ := (a + b) % (2 ^ 64)

/-- Right rotation of a 64-bit word. -/
def rotr64 (x n : ℕ) : ℕ := ((x >>> n) ||| (x <<< (64 - n))) % (2 ^ 64)

/-- SHA-512 `Ch` function (complement taken inside 64 bits). -/
def sha2Ch (e f g : ℕ) : ℕ := (e &&& f) ^^^ ((e ^^^ (2 ^ 64 - 1)) &&& g)

/-- SHA-512 `Maj` function. -/
def sha2Maj (a b c : ℕ) : ℕ := (a &&& b) ^^^ (a &&& c) ^^^ (b &&& c)

/-- SHA-512 big sigma 0. -/
def bsig0 (x : ℕ) : ℕ := rotr64 x 28 ^^^ rotr64 x 34 ^^^ rotr64 x 39

/-- SHA-512 big sigma 1. -/
def bsig1 (x : ℕ) : ℕ := rotr64 x 14 ^^^ rotr64 x 18 ^^^ rotr64 x 41

/-- SHA-512 small sigma 0. -/
def ssig0 (x : ℕ) : ℕ := rotr64 x 1 ^^^ rotr64 x 8 ^^^ (x >>> 7)

/-- SHA-512 small sigma 1. -/
def ssig1 (x : ℕ) : ℕ := rotr64 x 19 ^^^ rotr64 x 61 ^^^ (x >>> 6)

/-- The 80 SHA-512 round constants. -/
def sha512K : List ℕ :=
  [4794697086780616226, 8158064640168781261, 13096744586834688815, 16840607885511220156,
   4131703408338449720, 6480981068601479193, 10538285296894168987, 12329834152419229976,
   15566598209576043074, 1334009975649890238, 2608012711638119052, 6128411473006802146,
   8268148722764581231, 9286055187155687089, 11230858885718282805, 13951009754708518548,
   16472876342353939154, 17275323862435702243, 1135362057144423861, 2597628984639134821,
   3308224258029322869, 5365058923640841347, 6679025012923562964, 8573033837759648693,
   10970295158949994411, 12119686244451234320, 12683024718118986047, 13788192230050041572,
   14330467153632333762, 15395433587784984357, 489312712824947311, 1452737877330783856,
   2861767655752347644, 3322285676063803686, 5560940570517711597, 5996557281743188959,
   7280758554555802590, 8532644243296465576, 9350256976987008742, 10552545826968843579,
   11727347734174303076, 12113106623233404929, 14000437183269869457, 14369950271660146224,
   15101387698204529176, 15463397548674623760, 17586052441742319658, 1182934255886127544,
   1847814050463011016, 2177327727835720531, 2830643537854262169, 3796741975233480872,
   4115178125766777443, 5681478168544905931, 6601373596472566643, 7507060721942968483,
   8399075790359081724, 8693463985226723168, 9568029438360202098, 10144078919501101548,
   10430055236837252648, 11840083180663258601, 13761210420658862357, 14299343276471374635,
   14566680578165727644, 15097957966210449927, 16922976911328602910, 17689382322260857208,
   500013540394364858, 748580250866718886, 1242879168328830382, 1977374033974150939,
   2944078676154940804, 3659926193048069267, 4368137639120453308, 4836135668995329356,
   5532061633213252278, 6448918945643986474, 6902733635092675308, 7801388544844847127]

/-- The eight chaining variables of the SHA-512 compression function. -/
structure Sha512State where
  a : ℕ
  b : ℕ
  c : ℕ
  d : ℕ
  e : ℕ
  f : ℕ
  g : ℕ
  h : ℕ
deriving DecidableEq

/-- SHA-512 initial hash value. -/
def sha512H0 : Sha512State :=
  ⟨7640891576956012808, 13503953896175478587, 4354685564936845355,
   11912009170470909681, 5840696475078001361, 11170449401992604703,
   2270897969802886507, 6620516959819538809⟩

/-- `k` bytes of `n` in big-endian order. -/
def beBytes (k n : ℕ) : List ℕ :=
  (List.range k).map (fun i => (n >>> (8 * (k - 1 - i))) % 256)

/-- SHA-512 padding: append `0x80`, zero bytes to 112 mod 128, then the
128-bit big-endian bit length. -/
def sha512Pad (msg : List ℕ) : List ℕ :=
  let z := (128 - ((msg.length + 17) % 128)) % 128
  msg ++ [128] ++ List.replicate z 0 ++ beBytes 16 (8 * msg.length)

/-- Big-endian 64-bit words from a byte list (eight bytes per word). -/
def bytesToWords : List ℕ → List ℕ
  | b0 :: b1 :: b2 :: b3 :: b4 :: b5 :: b6 :: b7 :: rest =>
    (((((((b0 * 256 + b1) * 256 + b2) * 256 + b3) * 256 + b4) * 256 + b5) * 256
        + b6) * 256 + b7) :: bytesToWords rest
  | _ => []

/-- Split a word list into 1024-bit blocks of 16 words. -/
def blocks512 : List ℕ → List (List ℕ)
  | w0 :: w1 :: w2 :: w3 :: w4 :: w5 :: w6 :: w7 ::
      w8 :: w9 :: w10 :: w11 :: w12 :: w13 :: w14 :: w15 :: rest =>
    [w0, w1, w2, w3, w4, w5, w6, w7, w8, w9, w10, w11, w12, w13, w14, w15] ::
      blocks512 rest
  | _ => []

/-- One extension step of the message schedule, on the reversed schedule
(newest word first): `W[t] = ssig1 W[t-2] + W[t-7] + ssig0 W[t-15] + W[t-16]`. -/
def scheduleStep (rw : List ℕ) : List ℕ :=
  add64 (add64 (ssig1 (rw.getD 1 0)) (rw.getD 6 0))
      (add64 (ssig0 (rw.getD 14 0)) (rw.getD 15 0)) :: rw

/-- The 80-word message schedule of one block. -/
def schedule (block : List ℕ) : List ℕ := (scheduleStep^[64] block.reverse).reverse

/-- One SHA-512 round, consuming a round constant and a schedule word. -/
def sha512Round (st : Sha512State) (kw : ℕ × ℕ) : Sha512State :=
  let t1 := add64 st.h (add64 (bsig1 st.e) (add64 (sha2Ch st.e st.f st.g) (add64 kw.1 kw.2)))
  let t2 := add64 (bsig0 st.a) (sha2Maj st.a st.b st.c)
  ⟨add64 t1 t2, st.a, st.b, st.c, add64 st.d t1, st.e, st.f, st.g⟩

/-- The SHA-512 compression function on one 16-word block. -/
def sha512Compress (H : Sha512State) (block : List ℕ) : Sha512State :=
  let st := (sha512K.zip (schedule block)).foldl sha512Round H
  ⟨add64 H.a st.a, add64 H.b st.b, add64 H.c st.c, add64 H.d st.d,
   add64 H.e st.e, add64 H.f st.f, add64 H.g st.g, add64 H.h st.h⟩

/-- The full SHA-512 digest (64 bytes) of a byte string, as
`hashlib.sha512` computes it. -/
def sha512Bytes (msg : List ℕ) : List ℕ :=
  let Hf := (blocks512 (bytesToWords (sha512Pad msg))).foldl sha512Compress sha512H0
  [Hf.a, Hf.b, Hf.c, Hf.d, Hf.e, Hf.f, Hf.g, Hf.h].flatMap (beBytes 8)

/-- HMAC-SHA512 (`hmac.new(key, msg, hashlib.sha512).digest()`): the key is
hashed if longer than the 128-byte block, zero-padded to the block size, and
the nested inner/outer hashes use the `0x36`/`0x5c` pads. -/
def hmacSha512 (key msg : List ℕ) : List ℕ :=
  let k0 := if 128 < key.length then sha512Bytes key else key
  let kp := k0 ++ List.replicate (128 - k0.length) 0
  sha512Bytes ((kp.map (fun b => b ^^^ 92)) ++
    sha512Bytes ((kp.map (fun b => b ^^^ 54)) ++ msg))

/-- Lowercase hexadecimal digit. -/
def hexLowerChar (n : ℕ) : Char :=
  if n < 10 then Char.ofNat (48 + n) else Char.ofNat (87 + n)

/-- `.hexdigest()`: two lowercase hex digits per byte. -/
def bytesToHex (bs : List ℕ) : String :=
  ⟨bs.flatMap (fun b => [hexLowerChar (b / 16 % 16), hexLowerChar (b % 16)])⟩

/-- `_generate_signature` of `rapid_hitter.py` lines 23–26 (identical in
`single_pair_test.py` lines 15–18): urlencode the ordered params, HMAC-sign
the encoded bytes with SHA-512 under the UTF-8 bytes of the secret, and
return the lowercase hex digest. -/
def generateSignature (secretKey : String) (params : List (String × String)) : String :=
  bytesToHex (hmacSha512 (strBytes secretKey) (strBytes (urlencode params)))

/-- Big-endian numeric value of a byte list (used only in proofs, to embed
digests into a finite type). -/
def digestNat : List ℕ → ℕ
  | [] => 0
  | b :: bs => b * 256 ^ bs.length + digestNat bs

/-- Python `str.split` with a one-character separator, over the character
list: splitting never yields an empty list (splitting the empty string gives
`[[]]`, as in Python). -/
def splitOnChar (sep : Char) : List Char → List (List Char)
  | [] => [[]]
  | c :: rest =>
    if c = sep then [] :: splitOnChar sep rest
    else
      match splitOnChar sep rest with
      | [] => [[c]]
      | x :: xs => (c :: x) :: xs

/-- `pair.split('_')[0]`: the first component of splitting the pair
identifier on the underscore (the whole identifier when it has none). -/
def baseCurrency (pair : String) : String :=
  ⟨(splitOnChar '_' pair.data).headD []⟩

/-- Python dict item assignment `d[k] = v` viewed on the ordered item list:
if the key is present its value is updated in place (iteration position
kept), otherwise the pair is appended at the end. -/
def dictInsert (d : List (String × String)) (k v : String) : List (String × String) :=
  if d.any (fun p => p.1 = k) then
    d.map (fun p => if p.1 = k then (k, v) else p)
  else d ++ [(k, v)]

/-- The parameter dict built by `send_trade_request` in `rapid_hitter.py`
(lines 31–42): the seven fixed entries in insertion order, then
`params[base_currency] = '0.00001'`. The timestamp is the sampled
millisecond clock value passed in as `ts`. -/
def rapidParams (pair : String) (ts : ℕ) : List (String × String) :=
  dictInsert
    [("method", "trade"), ("timestamp", toString ts), ("recvWindow", "5000"),
     ("pair", pair), ("type", "buy"), ("price", "50000000000"),
     ("order_type", "limit")]
    (baseCurrency pair) "0.00001"

/-- The parameter dict built by `send_trade_request` in
`single_pair_test.py` (lines 21–35): the quantity key is only added when the
base currency is the literal `btc` or `eth`. -/
def spParams (pair : String) (ts : ℕ) : List (String × String) :=
  let base := baseCurrency pair
  let d := [("method", "trade"), ("timestamp", toString ts),
    ("recvWindow", "5000"), ("pair", pair), ("type", "buy"),
    ("price", "100000"), ("order_type", "limit")]
  if base = "btc" then dictInsert d "btc" "0.00001"
  else if base = "eth" then dictInsert d "eth" "0.00001"
  else d

/-! ## Helper lemmas -/

lemma spSend_request_id (pair : String) (j : ℕ) (t : Transport) :
    (spSend pair j t).request_id = j := by
  cases t <;> rfl

lemma rapidSend_request_id (pair : String) (j : ℕ) (t : RTransport) :
    (rapidSend pair j t).request_id = j := by
  cases t <;> rfl

lemma ccxtSend_request_id (pair : String) (j : ℕ) (t : CTransport) :
    (ccxtSend pair j t).request_id = j := by
  cases t <;> rfl

lemma runTestAux_length (init : ℚ) (N : ℕ) (pair : String) (o : ℕ → Transport) :
    ∀ (l : List ℕ) (st : AdaptiveState),
      (runTestAux init N pair o l st).1.length = l.length := by
  intro l
  induction l with
  | nil => intro st; rfl
  | cons i rest ih => intro st; simp [runTestAux, ih]

lemma ccxtRunAux_length (R start : ℕ) (pair : String) (o : ℕ → CTransport) :
    ∀ l : List ℕ, (ccxtRunAux R start pair o l).1.length = l.length := by
  intro l
  induction l with
  | nil => rfl
  | cons i rest ih => simp [ccxtRunAux, ih]

lemma rapidRunAux_length (start : ℕ) (pair : String) (o : ℕ → RTransport) :
    ∀ l : List ℕ, (rapidRunAux start pair o l).1.length = l.length := by
  intro l
  induction l with
  | nil => rfl
  | cons i rest ih => simp [rapidRunAux, ih]

lemma runTestAux_ids (init : ℚ) (N : ℕ) (pair : String) (o : ℕ → Transport) :
    ∀ (l : List ℕ) (st : AdaptiveState),
      (runTestAux init N pair o l st).1.map (fun r => r.request_id) = l := by
  intro l
  induction l with
  | nil => intro st; rfl
  | cons i rest ih => intro st; simp [runTestAux, ih, spSend_request_id]

lemma ccxtRunAux_ids (R start : ℕ) (pair : String) (o : ℕ → CTransport) :
    ∀ l : List ℕ,
      (ccxtRunAux R start pair o l).1.map (fun r => r.request_id)
        = l.map (fun k => start + k) := by
  intro l
  induction l with
  | nil => rfl
  | cons i rest ih => simp [ccxtRunAux, ih, ccxtSend_request_id]

lemma rapidRunAux_ids (start : ℕ) (pair : String) (o : ℕ → RTransport) :
    ∀ l : List ℕ,
      (rapidRunAux start pair o l).1.map (fun r => r.request_id)
        = l.map (fun k => start + k) := by
  intro l
  induction l with
  | nil => rfl
  | cons i rest ih => simp [rapidRunAux, ih, rapidSend_request_id]

/-! ## C10 and C8 -/

/-- C10: in adaptive-backoff mode, a result whose response body is not a
structured mapping — in particular a transport failure, whose logged body is
the raw error string — leaves the delay and the consecutive-error counter
completely unchanged, so the next request is issued after exactly the same
delay. -/
theorem C10_theorem (init : ℚ) (st : AdaptiveState) (s pair e : String) (i : ℕ) :
    adaptiveStep init st (Body.raw s) = st ∧
      adaptiveStep init st (spSend pair i (.failure e)).response = st :=
  ⟨rfl, rfl⟩

lemma rapidRunAllAux_zero (o : ℕ → ℕ → RTransport) :
    ∀ (pairs : List String) (i : ℕ), rapidRunAllAux 0 o i pairs = [] := by
  intro pairs
  induction pairs with
  | nil => intro i; rfl
  | cons p rest ih => intro i; simp [rapidRunAllAux, rapidRunPair, rapidRunAux, ih]

lemma ccxtRunAllAux_zero (o : ℕ → ℕ → CTransport) :
    ∀ (pairs : List String) (i : ℕ), ccxtRunAllAux 0 o i pairs = [] := by
  intro pairs
  induction pairs with
  | nil => intro i; rfl
  | cons p rest ih => intro i; simp [ccxtRunAllAux, ccxtRun, ccxtRunAux, ih]

/-- C8: with zero requests every channel run returns an empty result log,
issues no request and performs no wait (its event trace is also empty), and
the two dispatchers still complete normally, producing the empty merged
result set. -/
theorem C8_theorem (init : ℚ) (pair : String) (startId : ℕ)
    (o : ℕ → Transport) (co : ℕ → CTransport) (ro : ℕ → RTransport)
    (pairs : List String) (co2 : ℕ → ℕ → CTransport) (ro2 : ℕ → ℕ → RTransport) :
    runTest init 0 pair o = ([], []) ∧
      ccxtRun 0 startId pair co = ([], []) ∧
      rapidRunPair 0 startId pair ro = ([], []) ∧
      ccxtRunAll pairs 0 co2 = [] ∧
      rapidRunAll pairs 0 ro2 = [] :=
  ⟨rfl, rfl, rfl, ccxtRunAllAux_zero co2 pairs 0, rapidRunAllAux_zero ro2 pairs 0⟩

/-- C6: a transport failure is caught and logged as a result record with the
error status, the rate-limited flag false (where the record carries one), and
the raw error description as the body — and no outcome kind ever aborts a
channel: for every outcome oracle, a run of `N` requests logs exactly `N`
results, in all three variants. -/
theorem C6_theorem (pair e : String) (i N start : ℕ) (init : ℚ)
    (o : ℕ → Transport) (ro : ℕ → RTransport) (co : ℕ → CTransport) :
    rapidSend pair i (.failure e) = ⟨i, pair, .error, .raw e, false⟩ ∧
      spSend pair i (.failure e) = ⟨i, pair, .error, .raw e⟩ ∧
      ccxtSend pair i (.failure e) = ⟨i, pair, .error, e⟩ ∧
      (runTest init N pair o).1.length = N ∧
      (rapidRunPair N start pair ro).1.length = N ∧
      (ccxtRun N start pair co).1.length = N := by
  refine ⟨rfl, rfl, rfl, ?_, ?_, ?_⟩
  · simp [runTest, runTestAux_length]
  · simp [rapidRunPair, rapidRunAux_length]
  · simp [ccxtRun, ccxtRunAux_length]

/-! ## C1: adaptive-backoff bounds and monotonicity -/

lemma adaptiveStep_bounds (init : ℚ) (h0 : 0 ≤ init) (h5 : init ≤ backoffCeiling)
    (st : AdaptiveState) (hb1 : init ≤ st.backoff) (hb2 : st.backoff ≤ backoffCeiling)
    (resp : Body) :
    init ≤ (adaptiveStep init st resp).backoff ∧
      (adaptiveStep init st resp).backoff ≤ backoffCeiling := by
  rcases resp with ⟨ec, err⟩ | s
  · by_cases ht : errorCodeTruthy ec = true
    · by_cases hm : ec = some rateLimitErrorCode
      · have hbb : st.backoff ≤ st.backoff * 2 := by nlinarith
        simp only [adaptiveStep, ht, hm, if_true]
        constructor
        · exact le_min (le_trans hb1 hbb) h5
        · exact min_le_right _ _
      · simp only [adaptiveStep, ht, hm, if_true, if_false]
        exact ⟨hb1, hb2⟩
    · simp only [adaptiveStep, ht, if_false]
      constructor
      · exact le_max_left _ _
      · have hsh : st.backoff / (3/2) ≤ st.backoff := by
          have h0b : 0 ≤ st.backoff := le_trans h0 hb1
          nlinarith
        exact max_le h5 (le_trans hsh hb2)
  · exact ⟨hb1, hb2⟩

lemma adaptiveFold_bounds (init : ℚ) (h0 : 0 ≤ init) (h5 : init ≤ backoffCeiling) :
    ∀ (outcomes : List Body) (st : AdaptiveState),
      init ≤ st.backoff → st.backoff ≤ backoffCeiling →
        init ≤ (outcomes.foldl (adaptiveStep init) st).backoff ∧
          (outcomes.foldl (adaptiveStep init) st).backoff ≤ backoffCeiling := by
  intro outcomes
  induction outcomes with
  | nil => intro st hb1 hb2; exact ⟨hb1, hb2⟩
  | cons o rest ih =>
    intro st hb1 hb2
    obtain ⟨h1, h2⟩ := adaptiveStep_bounds init h0 h5 st hb1 hb2 o
    exact ih (adaptiveStep init st o) h1 h2

/-- C1 (amended): provided the initial delay lies between 0 and the 5 s
ceiling, the adaptive delay always stays within `[initialDelay, 5]`; on an
outcome carrying the rate-limit `error_code` it becomes `min (2·b) 5` (never
decreasing), on a structured outcome with falsy `error_code` it becomes
`max initialDelay (b / 1.5)` (never increasing); hence the delay is
monotonically non-decreasing over consecutive rate-limited outcomes and
non-increasing over consecutive clean outcomes. -/
theorem C1_theorem (init b : ℚ) (n : ℕ) (ec err : Option String)
    (outcomes : List Body)
    (h0 : 0 ≤ init) (h5 : init ≤ 5) (hb1 : init ≤ b) (hb2 : b ≤ 5)
    (hec : errorCodeTruthy ec = false) :
    (init ≤ (adaptiveRun init outcomes).backoff ∧
        (adaptiveRun init outcomes).backoff ≤ 5) ∧
      (adaptiveStep init ⟨b, n⟩ (Body.dict (some rateLimitErrorCode) err)).backoff
          = min (b * 2) 5 ∧
      b ≤ (adaptiveStep init ⟨b, n⟩ (Body.dict (some rateLimitErrorCode) err)).backoff ∧
      (adaptiveStep init ⟨b, n⟩ (Body.dict ec err)).backoff = max init (b / (3/2)) ∧
      (adaptiveStep init ⟨b, n⟩ (Body.dict ec err)).backoff ≤ b := by
  have h5c : init ≤ backoffCeiling := h5
  have h0b : 0 ≤ b := le_trans h0 hb1
  refine ⟨?_, ?_, ?_, ?_, ?_⟩
  · exact adaptiveFold_bounds init h0 h5c outcomes ⟨init, 0⟩ le_rfl h5c
  · simp [adaptiveStep, errorCodeTruthy, rateLimitErrorCode, backoffCeiling]
  · have : (adaptiveStep init ⟨b, n⟩ (Body.dict (some rateLimitErrorCode) err)).backoff
        = min (b * 2) 5 := by
      simp [adaptiveStep, errorCodeTruthy, rateLimitErrorCode, backoffCeiling]
    rw [this]
    exact le_min (by nlinarith) hb2
  · simp [adaptiveStep, hec]
  · have : (adaptiveStep init ⟨b, n⟩ (Body.dict ec err)).backoff
        = max init (b / (3/2)) := by simp [adaptiveStep, hec]
    rw [this]
    exact max_le hb1 (by nlinarith)

/-- C1 counterexample: with `initialDelay = 6` (above the 5 s ceiling) a
single rate-limited outcome drives the delay to 5, strictly below the
initial delay and strictly decreasing — so as stated, without a bound on
`initialDelay`, the interval invariant `[initialDelay, 5]` and the
non-decrease under rate-limited outcomes both fail. -/
theorem C1_counterexample :
    (adaptiveRun 6 [Body.dict (some rateLimitErrorCode) none]).backoff < 6 ∧
      (adaptiveRun 6 [Body.dict (some rateLimitErrorCode) none]).backoff
        < (adaptiveRun 6 []).backoff := by
  constructor <;>
    · simp [adaptiveRun, adaptiveStep, errorCodeTruthy, rateLimitErrorCode,
        backoffCeiling]
      norm_num

/-- C1 witness: the amended invariant instantiated at
`initialDelay = 3/50` (60 ms), current delay 1, a clean outcome code and a
two-outcome run. -/
theorem C1_witness :
    ((0:ℚ) ≤ 3/50 ∧ (3/50:ℚ) ≤ 5 ∧ (3/50:ℚ) ≤ 1 ∧ (1:ℚ) ≤ 5 ∧
      errorCodeTruthy none = false) ∧
    ((3/50 ≤ (adaptiveRun (3/50)
          [Body.dict (some rateLimitErrorCode) none, Body.dict none none]).backoff ∧
        (adaptiveRun (3/50)
          [Body.dict (some rateLimitErrorCode) none, Body.dict none none]).backoff ≤ 5) ∧
      (adaptiveStep (3/50) ⟨1, 0⟩ (Body.dict (some rateLimitErrorCode) none)).backoff
          = min ((1:ℚ) * 2) 5 ∧
      (1:ℚ) ≤ (adaptiveStep (3/50) ⟨1, 0⟩
          (Body.dict (some rateLimitErrorCode) none)).backoff ∧
      (adaptiveStep (3/50) ⟨1, 0⟩ (Body.dict none none)).backoff
          = max (3/50) ((1:ℚ) / (3/2)) ∧
      (adaptiveStep (3/50) ⟨1, 0⟩ (Body.dict none none)).backoff ≤ 1) :=
  ⟨⟨by norm_num, by norm_num, by norm_num, by norm_num, rfl⟩,
    C1_theorem (3/50) 1 0 none none
      [Body.dict (some rateLimitErrorCode) none, Body.dict none none]
      (by norm_num) (by norm_num) (by norm_num) (by norm_num) rfl⟩

/-! ## C2: the rate-limited flag and the backoff trigger -/

lemma leadsWith_iff (nd : List Char) :
    ∀ hay : List Char, leadsWith nd hay = true ↔ ∃ r, hay = nd ++ r := by
  induction nd with
  | nil =>
    intro hay
    simp [leadsWith]
  | cons n ns ih =>
    intro hay
    cases hay with
    | nil =>
      simp [leadsWith]
    | cons h hs =>
      simp only [leadsWith, Bool.and_eq_true, decide_eq_true_eq, ih hs]
      constructor
      · rintro ⟨rfl, r, rfl⟩
        exact ⟨r, rfl⟩
      · rintro ⟨r, hr⟩
        injection hr with h1 h2
        exact ⟨h1.symm, r, h2⟩

lemma containsSub_iff (nd : List Char) :
    ∀ hay : List Char, containsSub hay nd = true ↔ ∃ l r, hay = l ++ nd ++ r := by
  intro hay
  induction hay with
  | nil =>
    simp only [containsSub, List.isEmpty_iff]
    constructor
    · rintro rfl
      exact ⟨[], [], rfl⟩
    · rintro ⟨l, r, hr⟩
      rcases l with _ | ⟨x, l⟩
      · rcases nd with _ | ⟨y, nd⟩
        · rfl
        · exact absurd hr (by simp)
      · exact absurd hr (by simp)
  | cons h hs ih =>
    simp only [containsSub, Bool.or_eq_true, leadsWith_iff, ih]
    constructor
    · rintro (⟨r, hr⟩ | ⟨l, r, hr⟩)
      · exact ⟨[], r, by simp [hr]⟩
      · exact ⟨h :: l, r, by simp [hr]⟩
    · rintro ⟨l, r, hr⟩
      rcases l with _ | ⟨x, l⟩
      · exact Or.inl ⟨r, by simpa using hr⟩
      · right
        injection hr with h1 h2
        exact ⟨l, r, h2⟩

lemma isRateLimited_some_iff (msg : String) :
    isRateLimited (some msg) = true ↔
      ∃ l r, lowerList msg.data = l ++ rateLimitMarker.data ++ r := by
  simp only [isRateLimited, Option.getD_some, Bool.and_eq_true, containsSub_iff]
  constructor
  · rintro ⟨-, h⟩
    exact h
  · rintro ⟨l, r, hr⟩
    refine ⟨?_, l, r, hr⟩
    simp only [Bool.not_eq_eq_eq_not, Bool.not_true, decide_eq_false_iff_not]
    intro h0
    subst h0
    simp only [String.data] at hr
    have : ([] : List Char).length = (l ++ rateLimitMarker.data ++ r).length :=
      congrArg List.length (by simpa [lowerList] using hr)
    simp [rateLimitMarker] at this
    omega

/-- C2 (amended): the ProbeResult's rate-limited flag, produced by the
transport of `rapid_hitter.py`, is true iff the body's error message
contains the fixed marker `"try again in 5 seconds"` as a case-insensitive
substring (a substring occurrence, not an exact match) and is false when the
body carries no error message; but the adaptive-backoff trigger of
`single_pair_test.py` is a different criterion — an exact equality test of
the `error_code` field against `"too_many_requests_from_your_ip"` — so the
doubling fires exactly on that equality, not on the substring test. -/
theorem C2_theorem (pair : String) (i status : ℕ) (ec err : Option String)
    (msg : String) (b init : ℚ) (n : ℕ) :
    ((rapidSend pair i (.success status ec (some msg))).is_rate_limited = true ↔
        ∃ l r, lowerList msg.data = l ++ rateLimitMarker.data ++ r) ∧
      (rapidSend pair i (.success status ec none)).is_rate_limited = false ∧
      (adaptiveStep init ⟨b, n⟩ (Body.dict ec err)).backoff
        = (if ec = some rateLimitErrorCode then min (b * 2) 5
            else if errorCodeTruthy ec then b else max init (b / (3/2))) := by
  refine ⟨by simpa [rapidSend] using isRateLimited_some_iff msg, rfl, ?_⟩
  by_cases hm : ec = some rateLimitErrorCode
  · subst hm
    have ht : errorCodeTruthy (some rateLimitErrorCode) = true := rfl
    simp [adaptiveStep, ht, backoffCeiling]
  · by_cases ht : errorCodeTruthy ec = true
    · simp [adaptiveStep, hm, ht]
    · simp only [Bool.not_eq_true] at ht
      simp [adaptiveStep, hm, ht]

/-- C2 counterexample: a body whose error message contains the marker as a
case-insensitive substring (and differs from the marker, witnessing the
substring semantics) sets the transport's rate-limited flag, yet its
`error_code` is not the exact rate-limit code, so the adaptive backoff is
not triggered: the delay stays exactly 1 instead of doubling. -/
theorem C2_counterexample :
    isRateLimited (some "Please Try Again in 5 Seconds.") = true ∧
      "Please Try Again in 5 Seconds." ≠ rateLimitMarker ∧
      (adaptiveStep 1 ⟨1, 0⟩
        (Body.dict (some "limit_exceeded") (some "Please Try Again in 5 Seconds."))).backoff
        = 1 := by
  refine ⟨by decide, by decide, ?_⟩
  simp [adaptiveStep, errorCodeTruthy, rateLimitErrorCode]

/-! ## C5: waits between requests -/

lemma weaveEvents_filter_length :
    ∀ (ids : List ℕ) (ds : List ℚ), ds.length ≤ ids.length →
      ((weaveEvents ids ds).filter Event.isWait).length = ds.length := by
  intro ids
  induction ids with
  | nil =>
    intro ds hds
    have : ds = [] := List.eq_nil_of_length_eq_zero (Nat.le_zero.mp hds)
    subst this
    rfl
  | cons i rest ih =>
    intro ds hds
    cases ds with
    | nil =>
      have h0 : (0:ℕ) ≤ rest.length := Nat.zero_le _
      simpa [weaveEvents, Event.isWait] using ih [] h0
    | cons d ds =>
      have : ds.length ≤ rest.length := by
        simpa using hds
      simp [weaveEvents, Event.isWait, ih ds this]

lemma runTestAux_weave (init : ℚ) (N : ℕ) (pair : String) (o : ℕ → Transport) :
    ∀ (k a : ℕ) (st : AdaptiveState), a + k = N →
      ∃ ds : List ℚ, ds.length = k - 1 ∧
        (runTestAux init N pair o (List.range' a k) st).2
          = weaveEvents (List.range' a k) ds := by
  intro k
  induction k with
  | zero =>
    intro a st _
    exact ⟨[], rfl, rfl⟩
  | succ k ih =>
    intro a st hN
    obtain ⟨ds, hl, he⟩ :=
      ih (a + 1) (adaptiveStep init st (spSend pair a (o a)).response) (by omega)
    cases k with
    | zero =>
      have hg : ¬ a < N - 1 := by omega
      refine ⟨[], rfl, ?_⟩
      show (runTestAux init N pair o (a :: List.range' (a + 1) 0) st).2 = _
      simp [runTestAux, hg, weaveEvents]
    | succ m =>
      have hg : a < N - 1 := by omega
      refine ⟨(adaptiveStep init st (spSend pair a (o a)).response).backoff :: ds,
        ?_, ?_⟩
      · simp only [List.length_cons, hl]
        omega
      · have hstep : (runTestAux init N pair o (List.range' a (m + 1 + 1)) st).2
            = Event.request a ::
              Event.wait (adaptiveStep init st (spSend pair a (o a)).response).backoff ::
                (runTestAux init N pair o (List.range' (a + 1) (m + 1))
                  (adaptiveStep init st (spSend pair a (o a)).response)).2 := by
          show (runTestAux init N pair o (a :: List.range' (a + 1) (m + 1)) st).2 = _
          simp only [runTestAux, hg, if_true]
        rw [hstep, he]
        rfl

lemma ccxtRunAux_weave (R start : ℕ) (pair : String) (co : ℕ → CTransport) :
    ∀ (k a : ℕ), a + k = R →
      (ccxtRunAux R start pair co (List.range' a k)).2
        = weaveEvents ((List.range' a k).map (fun t => start + t))
            (List.replicate (k - 1) (3/50)) := by
  intro k
  induction k with
  | zero => intro a _; rfl
  | succ k ih =>
    intro a hR
    cases k with
    | zero =>
      have hg : ¬ a < R - 1 := by omega
      show (ccxtRunAux R start pair co (a :: List.range' (a + 1) 0)).2 = _
      simp [ccxtRunAux, hg, weaveEvents]
    | succ m =>
      have hg : a < R - 1 := by omega
      have hstep : (ccxtRunAux R start pair co (List.range' a (m + 1 + 1))).2
          = Event.request (start + a) :: Event.wait (3/50) ::
              (ccxtRunAux R start pair co (List.range' (a + 1) (m + 1))).2 := by
        show (ccxtRunAux R start pair co (a :: List.range' (a + 1) (m + 1))).2 = _
        simp only [ccxtRunAux, hg, if_true]
      rw [hstep, ih (a + 1) (by omega)]
      rfl

lemma rapidRunAux_waits (start : ℕ) (pair : String) (ro : ℕ → RTransport) :
    ∀ l : List ℕ,
      ((rapidRunAux start pair ro l).2.filter Event.isWait).length = l.length := by
  intro l
  induction l with
  | nil => rfl
  | cons i rest ih => simp [rapidRunAux, Event.isWait, ih]

/-- C5 (amended): in the blocking schedulers — adaptive-backoff
(`single_pair_test.py`) and fixed-cadence blocking (`ccxt_rapid_hitter.py`)
— each of the first `N-1` requests is followed by exactly one wait and the
final request by none (the trace is a weave of the `N` requests with `N-1`
delays); but the fire-and-forget fixed-cadence scheduler of
`rapid_hitter.py` sleeps after every scheduled request including the final
one: its trace contains exactly `N` waits. -/
theorem C5_theorem (init : ℚ) (N R start : ℕ) (pair : String)
    (o : ℕ → Transport) (co : ℕ → CTransport) (ro : ℕ → RTransport) :
    (∃ ds : List ℚ, ds.length = N - 1 ∧
        (runTest init N pair o).2 = weaveEvents (List.range N) ds) ∧
      (ccxtRun R start pair co).2
        = weaveEvents ((List.range R).map (fun t => start + t))
            (List.replicate (R - 1) (3/50)) ∧
      ((runTest init N pair o).2.filter Event.isWait).length = N - 1 ∧
      ((rapidRunPair R start pair ro).2.filter Event.isWait).length = R := by
  obtain ⟨ds, hl, he⟩ := runTestAux_weave init N pair o N 0 ⟨init, 0⟩ (by omega)
  refine ⟨⟨ds, hl, by simpa [runTest, List.range_eq_range'] using he⟩, ?_, ?_, ?_⟩
  · simpa [ccxtRun, List.range_eq_range'] using
      ccxtRunAux_weave R start pair co R 0 (by omega)
  · rw [show (runTest init N pair o).2 = weaveEvents (List.range N) ds by
      simpa [runTest, List.range_eq_range'] using he]
    rw [weaveEvents_filter_length (List.range N) ds
      (by rw [hl, List.length_range]; omega)]
    exact hl
  · simpa [rapidRunPair] using
      rapidRunAux_waits start pair ro (List.range R)

/-- C5 counterexample: in fixed-cadence mode, `rapid_hitter.py`'s scheduler
does wait after the final request — a run of a single request produces the
trace `[request 0, wait 60 ms]`, ending in a wait. -/
theorem C5_counterexample :
    (rapidRunPair 1 0 "btc_idr" (fun _ => RTransport.failure "boom")).2
      = [Event.request 0, Event.wait (3/50)] := by
  simp [rapidRunPair, rapidRunAux, List.range_succ]

/-! ## C4: sequence numbers -/

lemma rapidRunAllAux_ids (R : ℕ) (o2 : ℕ → ℕ → RTransport) :
    ∀ (pairs : List String) (i : ℕ),
      (rapidRunAllAux R o2 i pairs).map (fun r => r.request_id)
        = (List.range' i pairs.length).flatMap
            (fun t => (List.range R).map (fun k => t * R + k)) := by
  intro pairs
  induction pairs with
  | nil => intro i; rfl
  | cons p rest ih =>
    intro i
    show ((rapidRunPair R (i * R) p (o2 i)).1
        ++ rapidRunAllAux R o2 (i + 1) rest).map (fun r => r.request_id) = _
    rw [List.map_append, ih (i + 1)]
    rw [show (rapidRunPair R (i * R) p (o2 i)).1.map (fun r => r.request_id)
        = (List.range R).map (fun k => i * R + k) from by
      simpa [rapidRunPair] using rapidRunAux_ids (i * R) p (o2 i) (List.range R)]
    rfl

lemma channel_offset_lt {i j a R : ℕ} (hij : i < j) (ha : a < R) :
    i * R + a < j * R := by
  have h1 : i * R + a < (i + 1) * R := by
    have : (i + 1) * R = i * R + R := by ring
    omega
  have h2 : (i + 1) * R ≤ j * R := Nat.mul_le_mul_right R (by omega)
  omega

/-- C4: each channel's logged sequence numbers are the gap-free strictly
increasing block of `N` consecutive integers starting at its `start_id`
(`0..N-1` when the channel starts at 0, as `single_pair_test.py`'s single
channel always does), and the dispatcher gives channel `i` the start
`i × requestsPerChannel`, so distinct channels' sequence numbers never
overlap. -/
theorem C4_theorem (init : ℚ) (pair : String) (o : ℕ → Transport)
    (ro : ℕ → RTransport) (co : ℕ → CTransport) (ro2 : ℕ → ℕ → RTransport)
    (pairs : List String) (N R start i j a b : ℕ)
    (hij : i ≠ j) (ha : a < R) (hb : b < R) :
    ((runTest init N pair o).1.map (fun r => r.request_id) = List.range N) ∧
      ((rapidRunPair R start pair ro).1.map (fun r => r.request_id)
          = (List.range R).map (fun k => start + k)) ∧
      ((ccxtRun R start pair co).1.map (fun r => r.request_id)
          = (List.range R).map (fun k => start + k)) ∧
      ((rapidRunPair R 0 pair ro).1.map (fun r => r.request_id) = List.range R) ∧
      List.Pairwise (· < ·)
          ((rapidRunPair R start pair ro).1.map (fun r => r.request_id)) ∧
      ((rapidRunAll pairs R ro2).map (fun r => r.request_id)
          = (List.range pairs.length).flatMap
              (fun t => (List.range R).map (fun k => t * R + k))) ∧
      i * R + a ≠ j * R + b := by
  have hids : (rapidRunPair R start pair ro).1.map (fun r => r.request_id)
      = (List.range R).map (fun k => start + k) := by
    simpa [rapidRunPair] using rapidRunAux_ids start pair ro (List.range R)
  refine ⟨?_, hids, ?_, ?_, ?_, ?_, ?_⟩
  · simpa [runTest] using
      runTestAux_ids init N pair o (List.range N) ⟨init, 0⟩
  · simpa [ccxtRun] using ccxtRunAux_ids R start pair co (List.range R)
  · have h0 : (rapidRunPair R 0 pair ro).1.map (fun r => r.request_id)
        = (List.range R).map (fun k => 0 + k) := by
      simpa [rapidRunPair] using rapidRunAux_ids 0 pair ro (List.range R)
    simpa using h0
  · rw [hids, List.pairwise_map]
    exact (List.pairwise_lt_range R).imp (fun h => by omega)
  · simpa [rapidRunAll, List.range_eq_range'] using rapidRunAllAux_ids R ro2 pairs 0
  · rcases Nat.lt_or_ge i j with h | h
    · exact Nat.ne_of_lt (lt_of_lt_of_le (channel_offset_lt h ha) (by omega))
    · have hj : j < i := lt_of_le_of_ne h (Ne.symm hij)
      exact (Nat.ne_of_lt (lt_of_lt_of_le (channel_offset_lt hj hb) (by omega))).symm

/-- C4 witness: the sequence-number property instantiated at two channels,
two requests per channel, a failing transport, and the offsets of the two
channels' ranges. -/
theorem C4_witness :
    ((0:ℕ) ≠ 1 ∧ (1:ℕ) < 2 ∧ (0:ℕ) < 2) ∧
    (((runTest (3/50) 2 "btc_idr" (fun _ => Transport.failure "x")).1.map
          (fun r => r.request_id) = List.range 2) ∧
      ((rapidRunPair 2 3 "btc_idr" (fun _ => RTransport.failure "x")).1.map
          (fun r => r.request_id) = (List.range 2).map (fun k => 3 + k)) ∧
      ((ccxtRun 2 3 "btc_idr" (fun _ => CTransport.failure "x")).1.map
          (fun r => r.request_id) = (List.range 2).map (fun k => 3 + k)) ∧
      ((rapidRunPair 2 0 "btc_idr" (fun _ => RTransport.failure "x")).1.map
          (fun r => r.request_id) = List.range 2) ∧
      List.Pairwise (· < ·)
          ((rapidRunPair 2 3 "btc_idr" (fun _ => RTransport.failure "x")).1.map
            (fun r => r.request_id)) ∧
      ((rapidRunAll ["btc_idr", "eth_idr"] 2 (fun _ _ => RTransport.failure "x")).map
          (fun r => r.request_id)
        = (List.range (["btc_idr", "eth_idr"] : List String).length).flatMap
            (fun t => (List.range 2).map (fun k => t * 2 + k))) ∧
      0 * 2 + 1 ≠ 1 * 2 + 0) :=
  ⟨⟨by decide, by decide, by decide⟩,
    C4_theorem (3/50) "btc_idr" (fun _ => Transport.failure "x")
      (fun _ => RTransport.failure "x") (fun _ => CTransport.failure "x")
      (fun _ _ => RTransport.failure "x") ["btc_idr", "eth_idr"]
      2 2 3 0 1 1 0 (by decide) (by decide) (by decide)⟩

/-! ## C7: the base-currency quantity key -/

lemma dictInsert_mem (d : List (String × String)) (k v : String) :
    (k, v) ∈ dictInsert d k v := by
  by_cases h : d.any (fun p => p.1 = k) = true
  · simp only [dictInsert, h, if_true]
    rw [List.any_eq_true] at h
    obtain ⟨q, hq, hqk⟩ := h
    have hqk2 : q.1 = k := of_decide_eq_true hqk
    exact List.mem_map.mpr ⟨q, hq, by simp [hqk2]⟩
  · simp [dictInsert, h]

/-- C7 (amended): in `rapid_hitter.py` every pair's request parameters
contain the minimal quantity `0.00001` keyed under the base currency (the
first component of splitting the pair on `_`); in `single_pair_test.py` this
holds only when the base currency is the literal `btc` or `eth` — for any
other pair the parameter set is left with its seven fixed keys and no
quantity entry at all. -/
theorem C7_theorem (pair1 pair2 pair3 : String) (ts : ℕ)
    (h2 : baseCurrency pair2 = "btc" ∨ baseCurrency pair2 = "eth")
    (h3 : baseCurrency pair3 ≠ "btc") (h3e : baseCurrency pair3 ≠ "eth") :
    (baseCurrency pair1, "0.00001") ∈ rapidParams pair1 ts ∧
      (baseCurrency pair2, "0.00001") ∈ spParams pair2 ts ∧
      (spParams pair3 ts).map (fun p => p.1)
        = ["method", "timestamp", "recvWindow", "pair", "type", "price",
            "order_type"] := by
  refine ⟨dictInsert_mem _ _ _, ?_, ?_⟩
  · rcases h2 with h2 | h2
    · rw [show spParams pair2 ts
          = dictInsert [("method", "trade"), ("timestamp", toString ts),
              ("recvWindow", "5000"), ("pair", pair2), ("type", "buy"),
              ("price", "100000"), ("order_type", "limit")] "btc" "0.00001" from by
        simp [spParams, h2]]
      rw [← h2]
      exact h2 ▸ dictInsert_mem _ _ _
    · rw [show spParams pair2 ts
          = dictInsert [("method", "trade"), ("timestamp", toString ts),
              ("recvWindow", "5000"), ("pair", pair2), ("type", "buy"),
              ("price", "100000"), ("order_type", "limit")] "eth" "0.00001" from by
        simp [spParams, h2]]
      exact h2 ▸ dictInsert_mem _ _ _
  · simp [spParams, h3, h3e]

/-- C7 counterexample: for the pair `doge_idr`, whose base currency is
`doge`, the request built by `single_pair_test.py` contains no entry under
the key `doge` and no entry at all with the minimal quantity `0.00001` as
its value — the claimed quantity key is absent. -/
theorem C7_counterexample :
    (spParams "doge_idr" 7).all (fun p => !(p.1 = "doge")) = true ∧
      (spParams "doge_idr" 7).all (fun p => !(p.2 = "0.00001")) = true := by
  constructor <;> decide

/-- C7 witness: the amended statement instantiated at the pairs `xyz_idr`
(rapid hitter), `btc_idr` (single-pair, base `btc`) and `doge_idr`
(single-pair, no quantity key). -/
theorem C7_witness :
    ((baseCurrency "btc_idr" = "btc" ∨ baseCurrency "btc_idr" = "eth") ∧
      baseCurrency "doge_idr" ≠ "btc" ∧ baseCurrency "doge_idr" ≠ "eth") ∧
    ((baseCurrency "xyz_idr", "0.00001") ∈ rapidParams "xyz_idr" 7 ∧
      (baseCurrency "btc_idr", "0.00001") ∈ spParams "btc_idr" 7 ∧
      (spParams "doge_idr" 7).map (fun p => p.1)
        = ["method", "timestamp", "recvWindow", "pair", "type", "price",
            "order_type"]) :=
  ⟨⟨by decide, by decide, by decide⟩,
    C7_theorem "xyz_idr" "btc_idr" "doge_idr" 7 (by decide) (by decide) (by decide)⟩

/-! ## C3 and C9: the signature scheme -/

lemma beBytes_length (k n : ℕ) : (beBytes k n).length = k := by
  simp [beBytes]

lemma sha512Bytes_length (m : List ℕ) : (sha512Bytes m).length = 64 := by
  simp [sha512Bytes, beBytes_length]

lemma hmacSha512_length (k m : List ℕ) : (hmacSha512 k m).length = 64 := by
  simp only [hmacSha512]
  exact sha512Bytes_length _

lemma sha512Bytes_lt (m : List ℕ) : ∀ b ∈ sha512Bytes m, b < 256 := by
  intro b hb
  simp only [sha512Bytes, beBytes, List.mem_flatMap, List.mem_map] at hb
  obtain ⟨w, -, i, -, rfl⟩ := hb
  exact Nat.mod_lt _ (by omega)

lemma hmacSha512_lt (k m : List ℕ) : ∀ b ∈ hmacSha512 k m, b < 256 := by
  intro b hb
  simp only [hmacSha512] at hb
  exact sha512Bytes_lt _ b hb

lemma hexLowerChar_mem :
    ∀ m < 16, ("0123456789abcdef".data).contains (hexLowerChar m) = true := by
  decide

lemma hexLowerChar_inj :
    ∀ m1 < 16, ∀ m2 < 16, hexLowerChar m1 = hexLowerChar m2 → m1 = m2 := by
  decide

lemma hexList_all (bs : List ℕ) :
    (bs.flatMap (fun b => [hexLowerChar (b / 16 % 16), hexLowerChar (b % 16)])).all
      (fun c => ("0123456789abcdef".data).contains c) = true := by
  induction bs with
  | nil => rfl
  | cons b rest ih =>
    have h1 := hexLowerChar_mem (b / 16 % 16) (Nat.mod_lt _ (by omega))
    have h2 := hexLowerChar_mem (b % 16) (Nat.mod_lt _ (by omega))
    simp only [List.flatMap_cons, List.all_append, List.all_cons, List.all_nil,
      h1, h2, ih, Bool.and_true, Bool.and_self]

lemma bytesToHex_length (bs : List ℕ) : (bytesToHex bs).length = 2 * bs.length := by
  induction bs with
  | nil => rfl
  | cons b rest ih =>
    simp only [bytesToHex, String.length] at ih ⊢
    simp only [List.flatMap_cons, List.length_append, List.length_cons,
      List.length_nil, List.length_cons] at ih ⊢
    omega

lemma bytesToHex_inj : ∀ bs1 bs2 : List ℕ,
    (∀ b ∈ bs1, b < 256) → (∀ b ∈ bs2, b < 256) →
      bytesToHex bs1 = bytesToHex bs2 → bs1 = bs2 := by
  intro bs1
  induction bs1 with
  | nil =>
    intro bs2 _ _ h
    cases bs2 with
    | nil => rfl
    | cons b rest =>
      have := congrArg String.data h
      simp [bytesToHex] at this
  | cons b1 t1 ih =>
    intro bs2 h1 h2 h
    cases bs2 with
    | nil =>
      have := congrArg String.data h
      simp [bytesToHex] at this
    | cons b2 t2 =>
      have hdata := congrArg String.data h
      simp only [bytesToHex, List.flatMap_cons, List.cons_append, List.nil_append,
        List.cons.injEq] at hdata
      obtain ⟨hc1, hc2, hrest⟩ := hdata
      have hb1 : b1 < 256 := h1 b1 (List.mem_cons_self _ _)
      have hb2 : b2 < 256 := h2 b2 (List.mem_cons_self _ _)
      have hd1 : b1 / 16 % 16 = b2 / 16 % 16 :=
        hexLowerChar_inj _ (Nat.mod_lt _ (by omega)) _ (Nat.mod_lt _ (by omega)) hc1
      have hd2 : b1 % 16 = b2 % 16 :=
        hexLowerChar_inj _ (Nat.mod_lt _ (by omega)) _ (Nat.mod_lt _ (by omega)) hc2
      have hbeq : b1 = b2 := by omega
      have hteq : t1 = t2 := by
        refine ih t2 (fun x hx => h1 x (List.mem_cons_of_mem _ hx))
          (fun x hx => h2 x (List.mem_cons_of_mem _ hx)) ?_
        exact congrArg String.mk hrest
      rw [hbeq, hteq]

/-- C3: the generated signature is exactly the lowercase hexadecimal
HMAC-SHA512 digest (under the secret key's bytes) of the percent-encoded
`key=value` pairs joined with `&` in the supplied iteration order: its 128
characters are all lowercase hex digits, and the function is deterministic
— identical inputs give the identical signature. -/
theorem C3_theorem (secretKey : String) (params : List (String × String)) :
    generateSignature secretKey params
        = bytesToHex (hmacSha512 (strBytes secretKey)
            (strBytes (String.intercalate "&"
              (params.map (fun p => quotePlus p.1 ++ "=" ++ quotePlus p.2))))) ∧
      (generateSignature secretKey params).length = 128 ∧
      (generateSignature secretKey params).data.all
          (fun c => ("0123456789abcdef".data).contains c) = true ∧
      generateSignature secretKey params = generateSignature secretKey params := by
  refine ⟨rfl, ?_, ?_, rfl⟩
  · rw [generateSignature, bytesToHex_length, hmacSha512_length]
  · exact hexList_all (hmacSha512 (strBytes secretKey) (strBytes (urlencode params)))

lemma digestNat_lt : ∀ bs : List ℕ, (∀ b ∈ bs, b < 256) →
    digestNat bs < 256 ^ bs.length := by
  intro bs
  induction bs with
  | nil => intro; simp [digestNat]
  | cons b rest ih =>
    intro h
    have hb : b < 256 := h b (List.mem_cons_self _ _)
    have hr : digestNat rest < 256 ^ rest.length :=
      ih (fun x hx => h x (List.mem_cons_of_mem _ hx))
    have hmul : b * 256 ^ rest.length ≤ 255 * 256 ^ rest.length :=
      Nat.mul_le_mul_right _ (by omega)
    simp only [digestNat, List.length_cons]
    calc b * 256 ^ rest.length + digestNat rest
        < b * 256 ^ rest.length + 256 ^ rest.length := by omega
      _ ≤ 255 * 256 ^ rest.length + 256 ^ rest.length := Nat.add_le_add_right hmul _
      _ = 256 ^ (rest.length + 1) := by rw [pow_succ]; ring

lemma digestNat_inj : ∀ bs1 bs2 : List ℕ, bs1.length = bs2.length →
    (∀ b ∈ bs1, b < 256) → (∀ b ∈ bs2, b < 256) →
      digestNat bs1 = digestNat bs2 → bs1 = bs2 := by
  intro bs1
  induction bs1 with
  | nil =>
    intro bs2 hlen _ _ _
    cases bs2 with
    | nil => rfl
    | cons x xs => simp at hlen
  | cons b1 t1 ih =>
    intro bs2 hlen h1 h2 heq
    cases bs2 with
    | nil => simp at hlen
    | cons b2 t2 =>
      have hl : t1.length = t2.length := by simpa using hlen
      have hr1 : digestNat t1 < 256 ^ t2.length := by
        rw [← hl]
        exact digestNat_lt t1 (fun x hx => h1 x (List.mem_cons_of_mem _ hx))
      have hr2 : digestNat t2 < 256 ^ t2.length :=
        digestNat_lt t2 (fun x hx => h2 x (List.mem_cons_of_mem _ hx))
      simp only [digestNat, hl] at heq
      have hpos : 0 < (256:ℕ) ^ t2.length := by positivity
      have e1 : (digestNat t1 + b1 * 256 ^ t2.length) / 256 ^ t2.length = b1 := by
        rw [Nat.add_mul_div_right _ _ hpos, Nat.div_eq_of_lt hr1]
        omega
      have e2 : (digestNat t2 + b2 * 256 ^ t2.length) / 256 ^ t2.length = b2 := by
        rw [Nat.add_mul_div_right _ _ hpos, Nat.div_eq_of_lt hr2]
        omega
      have heq2 : digestNat t1 + b1 * 256 ^ t2.length
          = digestNat t2 + b2 * 256 ^ t2.length := by omega
      have hbeq : b1 = b2 := by rw [← e1, ← e2, heq2]
      have hteq : t1 = t2 := by
        refine ih t2 hl (fun x hx => h1 x (List.mem_cons_of_mem _ hx))
          (fun x hx => h2 x (List.mem_cons_of_mem _ hx)) ?_
        subst hbeq
        exact Nat.add_right_cancel heq2
      rw [hbeq, hteq]

/-- C9 (amended): the encoding and hex-rendering steps of the signature
scheme introduce no collisions of their own — two parameter mappings yield
the same signature exactly when they yield the same underlying HMAC-SHA512
digest. (Unrestricted injectivity, as the claim states it, is impossible:
the digest space is finite while the input space is not.) -/
theorem C9_theorem (secretKey : String) (p1 p2 : List (String × String)) :
    generateSignature secretKey p1 = generateSignature secretKey p2 ↔
      hmacSha512 (strBytes secretKey) (strBytes (urlencode p1))
        = hmacSha512 (strBytes secretKey) (strBytes (urlencode p2)) := by
  constructor
  · intro h
    exact bytesToHex_inj _ _ (hmacSha512_lt _ _) (hmacSha512_lt _ _) h
  · intro h
    rw [generateSignature, generateSignature, h]

/-- C9 counterexample: by cardinality the claim is false — there exist two
parameter mappings that differ in the value of the single key `a` yet
receive identical signatures, since the signature determines only a 64-byte
digest while the candidate values are unbounded. -/
theorem C9_counterexample :
    ∃ v1 v2 : String, v1 ≠ v2 ∧
      generateSignature "k" [("a", v1)] = generateSignature "k" [("a", v2)] := by
  have hfin : ∀ n : ℕ,
      digestNat (hmacSha512 (strBytes "k")
        (strBytes (urlencode [("a", (⟨List.replicate n 'a'⟩ : String))]))) < 256 ^ 64 := by
    intro n
    have h := digestNat_lt _ (hmacSha512_lt (strBytes "k")
      (strBytes (urlencode [("a", (⟨List.replicate n 'a'⟩ : String))])))
    rwa [hmacSha512_length] at h
  obtain ⟨n, m, hnm, hfe⟩ :=
    Finite.exists_ne_map_eq_of_infinite
      (fun n : ℕ => (⟨digestNat (hmacSha512 (strBytes "k")
        (strBytes (urlencode [("a", (⟨List.replicate n 'a'⟩ : String))]))),
          hfin n⟩ : Fin (256 ^ 64)))
  refine ⟨⟨List.replicate n 'a'⟩, ⟨List.replicate m 'a'⟩, ?_, ?_⟩
  · intro hc
    apply hnm
    have hd : List.replicate n 'a' = List.replicate m 'a' := congrArg String.data hc
    have hlen := congrArg List.length hd
    simpa using hlen
  · have hdig := congrArg Fin.val hfe
    have hmeq : hmacSha512 (strBytes "k")
          (strBytes (urlencode [("a", (⟨List.replicate n 'a'⟩ : String))]))
        = hmacSha512 (strBytes "k")
          (strBytes (urlencode [("a", (⟨List.replicate m 'a'⟩ : String))])) := by
      refine digestNat_inj _ _ ?_ (hmacSha512_lt _ _) (hmacSha512_lt _ _) hdig
      rw [hmacSha512_length, hmacSha512_length]
    rw [generateSignature, generateSignature, hmeq]

end Indodax
